import Mathlib

/-!
Verification of the bounded-depth class-closure and pattern-compilation
engine of the `ontology-semantic-canon` repository
(`scripts/pattern_generator.py` and `scripts/find_ambiguous_terms.py`),
as a shallow embedding in Lean 4.

Python strings are modelled as Lean `String` (a list of characters);
Python sets are modelled as duplicate-free lists (`List.dedup`);
Python exceptions are modelled with `Except`.
-/

/-! ## String utilities (embedding of the Python string primitives used) -/

/-- Embedding of `str.startswith`, on character lists. -/
def prefixB : List Char → List Char → Bool
  | [], _ => true
  | _ :: _, [] => false
  | p :: ps, c :: cs => p == c && prefixB ps cs

/-- Embedding of `str.startswith(pre)`. -/
def pyStartsWith (pre s : String) : Bool :=
  prefixB pre.data s.data

/-- ASCII whitespace recognised by `str.strip` (space, tab, newline, CR, VT, FF). -/
def isPyWs (c : Char) : Bool :=
  c == ' ' || c == '\t' || c == '\n' || c == '\r' || c == '\x0b' || c == '\x0c'

/-- Embedding of `str.strip()`: drop whitespace from both ends. -/
def pyStrip (s : String) : String :=
  ⟨((s.data.dropWhile isPyWs).reverse.dropWhile isPyWs).reverse⟩

/-- ASCII lowering of one character, as `str.lower` does on ASCII input. -/
def lowerChar (c : Char) : Char :=
  if 'A' ≤ c && c ≤ 'Z' then Char.ofNat (c.toNat + 32) else c

/-- Embedding of `str.lower()`. -/
def pyLower (s : String) : String :=
  ⟨s.data.map lowerChar⟩

/-- Embedding of Python `sorted` on strings (lexicographic by code point). -/
def sortStr (l : List String) : List String :=
  List.insertionSort (· ≤ ·) l

/-- Embedding of `"|".join(...)`. -/
def joinBar : List String → String
  | [] => ""
  | [s] => s
  | s :: rest => s ++ "|" ++ joinBar rest

/-- Embedding of `" ".join(...)`. -/
def joinSpace : List String → String
  | [] => ""
  | [s] => s
  | s :: rest => s ++ " " ++ joinSpace rest

/-- The characters escaped by Python `re.escape`
(the set `()[]\x7b\x7d?*+-|^$\.&~# \t\n\r\v\f`). -/
def specialChars : List Char :=
  ['(', ')', '[', ']', '\x7b', '\x7d', '?', '*', '+', '-', '|', '^', '$',
   '\\', '.', '&', '~', '#', ' ', '\t', '\n', '\r', '\x0b', '\x0c']

/-- Whether `re.escape` puts a backslash before this character. -/
def isSpecialChar (c : Char) : Bool :=
  specialChars.contains c

/-- Character-level body of `re.escape`: each special character is
replaced by a backslash followed by the character. -/
def escapeChars : List Char → List Char
  | [] => []
  | c :: cs => if isSpecialChar c then '\\' :: c :: escapeChars cs else c :: escapeChars cs

/-- Embedding of `re.escape`. -/
def reEscape (s : String) : String :=
  ⟨escapeChars s.data⟩

/-! ## PatternCompiler (from `scripts/pattern_generator.py`) -/

/-- Embedding of `generate_regex_pattern` (pattern_generator.py, lines 278-287):
empty input yields `""`; otherwise sort the labels, `re.escape` each,
join with `|` and wrap in word-boundary anchors. -/
def generate_regex_pattern (labels : List String) : String :=
  if labels.isEmpty then ""
  else "\\b(?:" ++ joinBar ((sortStr labels).map reEscape) ++ ")\\b"

/-- Embedding of `generate_values_clause` (pattern_generator.py, lines 290-296):
empty input yields the empty clause; otherwise sort the URIs, wrap each
in angle brackets, join with spaces inside the clause. -/
def generate_values_clause (uris : List String) : String :=
  if uris.isEmpty then "VALUES ?targetClass \x7b \x7d"
  else "VALUES ?targetClass \x7b " ++
    joinSpace ((sortStr uris).map (fun u => "<" ++ u ++ ">")) ++ " \x7d"

/-! ## Decoder used to state the regex round-trip property:
split an escaped alternation at its unescaped `|` separators while
undoing the `re.escape` backslashes. -/

/-- Scan the character stream: a backslash makes the next character literal,
an unescaped bar ends the current alternation element. -/
def splitUnescapeAux : List Char → Bool → List Char → List (List Char)
  | [], esc, acc => [(if esc then '\\' :: acc else acc).reverse]
  | c :: cs, true, acc => splitUnescapeAux cs false (c :: acc)
  | c :: cs, false, acc =>
    if c = '\\' then splitUnescapeAux cs true acc
    else if c = '|' then acc.reverse :: splitUnescapeAux cs false []
    else splitUnescapeAux cs false (c :: acc)

/-- Split an escaped alternation string into its unescaped elements. -/
def splitUnescapeStr (s : String) : List String :=
  (splitUnescapeAux s.data false []).map (fun cs => ⟨cs⟩)

/-- Remove the `\b(?:` head (5 characters) and `)\b` tail (3 characters)
of an anchored pattern. -/
def stripAnchors (s : String) : String :=
  ⟨(s.data.drop 5).take (s.data.length - 8)⟩

/-- Character-level view of `joinBar`. -/
def joinCh : List (List Char) → List Char
  | [] => []
  | [s] => s
  | s :: rest => s ++ '|' :: joinCh rest

/-! ## Graph model and ClosureResolver (from `scripts/pattern_generator.py`) -/

/-- Classes of Python exceptions relevant to the query code: the four
classes named in the `except` clauses, and any other exception class
(identified by its name). -/
inductive PyExc where
  | typeError
  | valueError
  | attributeError
  | keyError
  | other (name : String)
deriving DecidableEq, Repr

/-- Whether an exception class is matched by
`except (TypeError, ValueError, AttributeError, KeyError)`. -/
def caughtExc : PyExc → Bool
  | .typeError => true
  | .valueError => true
  | .attributeError => true
  | .keyError => true
  | .other _ => false

/-- RDF graph model: `sub` holds the `rdfs:subClassOf` triples
(child, parent); `cls` the subjects typed `owl:Class`; `lbl`, `alt`,
`pref` the `rdfs:label`, `skos:altLabel`, `skos:prefLabel` triples.
`queryFault` models a graph store whose `query` raises: when set,
every query against this graph raises that exception. -/
structure RGraph where
  sub : List (String × String)
  cls : List String
  lbl : List (String × String)
  alt : List (String × String)
  pref : List (String × String)
  queryFault : Option PyExc
deriving Repr

/-- Embedding of the URI validation shared by `get_subclass_labels`
(lines 156-159) and `get_subclass_uris` (lines 229-232):
`uri_str.startswith(("http://", "https://"))` and none of the
characters `>`, `<`, double quote, single quote occur. -/
def uriOkB (s : String) : Bool :=
  (pyStartsWith "http://" s || pyStartsWith "https://" s) &&
  !(s.data.contains '>' || s.data.contains '<' ||
    s.data.contains (Char.ofNat 34) || s.data.contains (Char.ofNat 39))

/-- Triple-pattern match `?c rdfs:subClassOf ?p` at concrete `c`, `p`. -/
def edgeB (g : RGraph) (c p : String) : Bool :=
  g.sub.any (fun pr => pr.1 == c && pr.2 == p)

/-- The four-branch UNION of the SPARQL queries in `get_subclass_labels`
and `get_subclass_uris` (levels 0-3): the root itself, direct children,
grandchildren (via a bound `?parent`), great-grandchildren (via bound
`?grandparent` and `?parent`). -/
def closurePattern (g : RGraph) (root c : String) : Bool :=
  (c == root) ||
  edgeB g c root ||
  g.sub.any (fun pr => pr.2 == root && edgeB g c pr.1) ||
  g.sub.any (fun gp => gp.2 == root &&
    g.sub.any (fun pr => pr.2 == gp.1 && edgeB g c pr.1))

/-- The `?class` solutions of the closure query after the
`?class a owl:Class` pattern: classes satisfying the UNION. -/
def closureClasses (g : RGraph) (root : String) : List String :=
  g.cls.filter (fun c => closurePattern g root c)

/-- All objects of triples with the given subject (rdflib `g.objects(s, p)`). -/
def objs (triples : List (String × String)) (s : String) : List String :=
  (triples.filter (fun pr => pr.1 == s)).map (fun pr => pr.2)

/-- The `?label` solutions of the label query of `get_subclass_labels`:
for each class in the closure, its `rdfs:label`, `skos:altLabel` and
`skos:prefLabel` values (the three-branch label UNION). -/
def labelRows (g : RGraph) (root : String) : List String :=
  (closureClasses g root).flatMap (fun c => objs g.lbl c ++ objs g.alt c ++ objs g.pref c)

/-- The result-iteration loop of `get_subclass_labels` (lines 206-218):
skip falsy bindings, strip, keep strings of length > 1, collect into a set. -/
def cleanLabels (rows : List String) : List String :=
  (rows.filterMap (fun l =>
    if l == "" then none
    else
      let t := pyStrip l
      if t != "" && 1 < t.length then some t else none)).dedup

/-- Embedding of `get_subclass_labels` (pattern_generator.py, lines 148-218):
validate the root URI (raising `ValueError` on failure), run the bounded
closure + label query, recover the four caught exception classes as an
empty result; the returned Python set is modelled as a deduplicated list. -/
def get_subclass_labels (g : RGraph) (root : String) : Except PyExc (List String) :=
  if !uriOkB root then .error .valueError
  else
    match g.queryFault with
    | some e => if caughtExc e then .ok [] else .error e
    | none => .ok (cleanLabels (labelRows g root))

/-- Embedding of `get_subclass_uris` (pattern_generator.py, lines 221-275):
validate the root URI, run the bounded closure query, skip falsy bindings,
collect into a set (modelled as a deduplicated list), recovering the four
caught exception classes as an empty result. -/
def get_subclass_uris (g : RGraph) (root : String) : Except PyExc (List String) :=
  if !uriOkB root then .error .valueError
  else
    match g.queryFault with
    | some e => if caughtExc e then .ok [] else .error e
    | none => .ok (((closureClasses g root).filter (fun c => c != "")).dedup)

/-- Specification-side reachability: `reachB g k c root` holds when a chain
of at most `k` `rdfs:subClassOf` edges leads from `c` up to `root`
(`k = 0` meaning `c` is the root itself). -/
def reachB (g : RGraph) : Nat → String → String → Bool
  | 0, c, root => c == root
  | k + 1, c, root =>
    (c == root) || g.sub.any (fun pr => pr.1 == c && reachB g k pr.2 root)

/-! ## PatternCatalog (from `generate_patterns`, pattern_generator.py lines 299-350) -/

/-- One entry of a category's `root_classes` configuration list. -/
structure RootClass where
  id : String
  label : String
deriving DecidableEq, Repr

/-- One category's configuration (`label`, `description`, `root_classes`). -/
structure CatConfig where
  label : String
  description : String
  root_classes : List RootClass
deriving DecidableEq, Repr

/-- The configuration document: the configured namespace (`namespace` in the
source; renamed `ns` because `namespace` is a Lean keyword) and the ordered
category mapping. -/
structure PatConfig where
  ns : String
  categories : List (String × CatConfig)
deriving Repr

/-- One compiled category of the output document. -/
structure CatEntry where
  label : String
  description : String
  labels : List String
  label_count : Nat
  regex : String
  class_uris : List String
  class_count : Nat
  values_clause : String
deriving DecidableEq, Repr

/-- The per-root loop of `generate_patterns` (lines 321-336): for each root,
build its URI from the namespace and id, collect labels into the category
label set and URIs into the category URI list. -/
def processRoots (g : RGraph) (ns : String) :
    List RootClass → Except PyExc (List String × List String)
  | [] => .ok ([], [])
  | r :: rs => do
    let ls ← get_subclass_labels g (ns ++ r.id)
    let us ← get_subclass_uris g (ns ++ r.id)
    let rest ← processRoots g ns rs
    .ok (ls ++ rest.1, us ++ rest.2)

/-- Assembly of one category entry (lines 339-348): sorted deduplicated
labels and URIs, their counts, and the two compiled artifacts. -/
def buildEntry (g : RGraph) (ns : String) (cfg : CatConfig) : Except PyExc CatEntry := do
  let lu ← processRoots g ns cfg.root_classes
  let lset := lu.1.dedup
  let uset := lu.2.dedup
  .ok { label := cfg.label
        description := cfg.description
        labels := sortStr lset
        label_count := lset.length
        regex := generate_regex_pattern lset
        class_uris := sortStr uset
        class_count := uset.length
        values_clause := generate_values_clause uset }

/-- The category loop of `generate_patterns`, in configuration order. -/
def buildCats (g : RGraph) (ns : String) :
    List (String × CatConfig) → Except PyExc (List (String × CatEntry))
  | [] => .ok []
  | (n, cfg) :: rest => do
    let e ← buildEntry g ns cfg
    let tail ← buildCats g ns rest
    .ok ((n, e) :: tail)

/-- Embedding of `generate_patterns` (lines 299-350), restricted to the
`categories` mapping of the output document (the constant `metadata`
block is omitted). Exceptions raised by the closure queries propagate. -/
def generate_patterns (g : RGraph) (config : PatConfig) :
    Except PyExc (List (String × CatEntry)) :=
  buildCats g config.ns config.categories

/-! ## AmbiguityDetector (from `scripts/find_ambiguous_terms.py`) -/

/-- A node of the ambiguity-scan graph: a blank node or a named (URI) node. -/
structure ANode where
  blank : Bool
  name : String
deriving DecidableEq, Repr

/-- Graph model for the ambiguity scan: the subjects typed `owl:Class`
(in iteration order), the `rdfs:label`, `skos:altLabel` and
`rdfs:subClassOf` triples over node names. -/
structure AGraph where
  classSubjects : List ANode
  lbl : List (String × String)
  alt : List (String × String)
  sub : List (String × String)
deriving Repr

/-- The `owl:Thing` URI, excluded from parent context. -/
def owlThing : String :=
  "http://www.w3.org/2002/07/owl#Thing"

/-- The ontology's own namespace (`OSC` in the source). -/
def oscNS : String :=
  "https://ontology.catholicos.catholic/"

/-- One occurrence record built by `_process_label`
(find_ambiguous_terms.py, lines 42-62): the owning class URI, the
original label text, the labels of the non-`owl:Thing` parents, and
whether the occurrence came from `skos:altLabel`. -/
structure AEntry where
  uri : String
  label : String
  parents : List String
  is_alt : Bool
deriving DecidableEq, Repr

/-- Parent context of a class (lines 48-53): labels of its
`rdfs:subClassOf` parents, skipping `owl:Thing`. -/
def parentsOf (g : AGraph) (c : String) : List String :=
  ((objs g.sub c).filter (fun p => p != owlThing)).flatMap (fun p => objs g.lbl p)

/-- The (key, entry) pairs produced by one `_process_label` call: one pair
per label value, keyed by `str(label).lower().strip()`. -/
def procLabel (g : AGraph) (c : String) (triples : List (String × String))
    (alt : Bool) : List (String × AEntry) :=
  (objs triples c).map (fun l =>
    (pyStrip (pyLower l),
     { uri := c, label := l, parents := parentsOf g c, is_alt := alt }))

/-- All (key, entry) pairs of the scan loop of `find_ambiguous_labels`
(lines 78-88): for each non-blank class subject in the ontology
namespace, its `rdfs:label` pairs then its `skos:altLabel` pairs. -/
def allPairs (g : AGraph) : List (String × AEntry) :=
  (g.classSubjects.filter (fun n => !n.blank && pyStartsWith oscNS n.name)).flatMap
    (fun n => procLabel g n.name g.lbl false ++ procLabel g n.name g.alt true)

/-- `defaultdict(list)` insertion: append to the existing group of this
key, or add a new group at the end. -/
def addToGroups : List (String × List AEntry) → String → AEntry →
    List (String × List AEntry)
  | [], k, e => [(k, [e])]
  | (k', es) :: rest, k, e =>
    if k' = k then (k', es ++ [e]) :: rest else (k', es) :: addToGroups rest k e

/-- Grouping of all occurrence pairs by key, in insertion order. -/
def groupPairs (ps : List (String × AEntry)) : List (String × List AEntry) :=
  ps.foldl (fun m p => addToGroups m p.1 p.2) []

/-- Embedding of `find_ambiguous_labels` (find_ambiguous_terms.py,
lines 65-97): group all occurrences by normalized label, keep the groups
with more than one occurrence. -/
def find_ambiguous_labels (g : AGraph) : List (String × List AEntry) :=
  (groupPairs (allPairs g)).filter (fun kv => 1 < kv.2.length)

/-- Specification-side view: the occurrences carrying a given normalized
key, in scan order. -/
def occsOf (ps : List (String × AEntry)) (k : String) : List AEntry :=
  (ps.filter (fun p => p.1 == k)).map (fun p => p.2)

/-! ## Concrete example inputs used by the witnesses -/

/-- A chain hierarchy: c1 ⊂ r, c2 ⊂ c1, c3 ⊂ c2, c4 ⊂ c3 (so c3 reaches r
by a 3-edge chain and c4 only by a 4-edge chain), all typed `owl:Class`. -/
def chainGraph : RGraph :=
  ⟨[("http://c1", "http://r"), ("http://c2", "http://c1"),
    ("http://c3", "http://c2"), ("http://c4", "http://c3")],
   ["http://r", "http://c1", "http://c2", "http://c3", "http://c4"],
   [], [], [], none⟩

/-- A configuration with one category whose `root_classes` list is empty. -/
def emptyCatConfig : PatConfig :=
  ⟨"http://ns/", [("empty_cat", ⟨"Empty", "", []⟩)]⟩

/-- A configuration with one category rooted at the leaf `c4` of
`chainGraph` (whose closure is the singleton `c4`). -/
def chainConfig : PatConfig :=
  ⟨"http://", [("leaf", ⟨"Leaf", "", [⟨"c4", "Leaf"⟩]⟩)]⟩

/-- The compiled entry of the `leaf` category of `chainConfig`. -/
def leafEntry : CatEntry :=
  ⟨"Leaf", "", [], 0, "", ["http://c4"], 1,
   "VALUES ?targetClass \x7b <http://c4> \x7d"⟩

/-! ## Theorems -/

/-- C8: `generate_regex_pattern` applied to the empty label set returns the
empty string, and `generate_values_clause` applied to the empty identifier
set returns the syntactically valid but semantically empty clause
`VALUES ?targetClass \x7b \x7d`. -/
theorem c8_empty_inputs :
    generate_regex_pattern [] = "" ∧
    generate_values_clause [] = "VALUES ?targetClass \x7b \x7d" :=
  ⟨rfl, rfl⟩

/-- C2: `get_subclass_uris` and `get_subclass_labels` raise `ValueError`
exactly when the root identifier fails the URI validation (does not start
with `http://` or `https://`, or contains one of `> < " '`), regardless of
the graph — so rejection happens before any query outcome matters — and a
conforming identifier is never rejected with `ValueError`. -/
theorem c2_validation_iff (g : RGraph) (root : String) :
    (uriOkB root = false →
      get_subclass_uris g root = .error .valueError ∧
      get_subclass_labels g root = .error .valueError) ∧
    (uriOkB root = true →
      get_subclass_uris g root ≠ .error .valueError ∧
      get_subclass_labels g root ≠ .error .valueError) := by
  constructor
  · intro h
    simp [get_subclass_uris, get_subclass_labels, h]
  · intro h
    unfold get_subclass_uris get_subclass_labels
    cases hq : g.queryFault with
    | none => simp [h]
    | some e => cases e <;> simp [h, caughtExc]

/-- Witness for C2: the injection attempt `http://example.org/"> DROP` is
rejected with `ValueError` by both functions, and a conforming identifier
is not rejected. -/
theorem c2_validation_iff_witness :
    get_subclass_uris ⟨[], [], [], [], [], none⟩ "http://example.org/\"> DROP" =
      .error .valueError ∧
    get_subclass_labels ⟨[], [], [], [], [], none⟩ "http://example.org/\"> DROP" =
      .error .valueError ∧
    get_subclass_uris ⟨[], [], [], [], [], none⟩ "https://example.org/ok" ≠
      .error .valueError :=
  ⟨((c2_validation_iff _ _).1 (by decide)).1,
   ((c2_validation_iff _ _).1 (by decide)).2,
   ((c2_validation_iff _ _).2 (by decide)).1⟩

/-- C3 counterexample: the `except` clauses of `get_subclass_uris` and
`get_subclass_labels` catch only `TypeError`, `ValueError`,
`AttributeError` and `KeyError`; a query fault of any other class — here
`NotImplementedError`, which rdflib stores raise when they do not support
querying — propagates out of `get_subclass_uris`, contradicting the claim
that no query-execution fault ever propagates. -/
theorem c3_uncaught_fault_propagates :
    get_subclass_uris ⟨[], [], [], [], [], some (.other "NotImplementedError")⟩
      "http://example.org/root" = .error (.other "NotImplementedError") := by
  rfl

/-- C3 (amended): a query fault of one of the four caught classes
(`TypeError`, `ValueError`, `AttributeError`, `KeyError`) is recovered:
both functions return the empty result for that root instead of
propagating the fault. -/
theorem c3_caught_fault_empty (g : RGraph) (root : String) (e : PyExc)
    (hok : uriOkB root = true) (hf : g.queryFault = some e)
    (hc : caughtExc e = true) :
    get_subclass_uris g root = .ok [] ∧ get_subclass_labels g root = .ok [] := by
  simp [get_subclass_uris, get_subclass_labels, hok, hf, hc]

/-- Witness for the amended C3: a `TypeError` query fault yields the empty
result from both functions. -/
theorem c3_caught_fault_empty_witness :
    get_subclass_uris ⟨[], [], [], [], [], some .typeError⟩ "http://example.org/root" =
      .ok [] ∧
    get_subclass_labels ⟨[], [], [], [], [], some .typeError⟩ "http://example.org/root" =
      .ok [] :=
  c3_caught_fault_empty _ _ .typeError (by decide) rfl rfl

/-- C4: the outputs of `generate_values_clause` and `generate_regex_pattern`
depend only on the unordered input set: any two permutations of the same
elements compile to byte-identical strings. -/
theorem c4_perm_invariant (l1 l2 : List String) (h : l1.Perm l2) :
    generate_values_clause l1 = generate_values_clause l2 ∧
    generate_regex_pattern l1 = generate_regex_pattern l2 := by
  have hsort : sortStr l1 = sortStr l2 :=
    List.eq_of_perm_of_sorted
      (((List.perm_insertionSort _ l1).trans h).trans
        (List.perm_insertionSort _ l2).symm)
      (List.sorted_insertionSort _ l1) (List.sorted_insertionSort _ l2)
  have hlen := h.length_eq
  have hemp : l1.isEmpty = l2.isEmpty := by
    cases l1 <;> cases l2 <;> simp_all
  constructor
  · unfold generate_values_clause
    rw [hsort, hemp]
  · unfold generate_regex_pattern
    rw [hsort, hemp]

/-- Witness for C4: the two orderings of the set of "a", "b" compile
identically. -/
theorem c4_perm_invariant_witness :
    generate_values_clause ["b", "a"] = generate_values_clause ["a", "b"] ∧
    generate_regex_pattern ["b", "a"] = generate_regex_pattern ["a", "b"] :=
  c4_perm_invariant _ _ (List.Perm.swap _ _ _)

/-- C10: on a non-empty label set, `generate_regex_pattern` emits exactly
the word-boundary-anchored alternation of the `re.escape`-d labels taken
in lexicographic order — never an unanchored variant. -/
theorem c10_anchored_sorted_alternation (labels : List String) (h : labels ≠ []) :
    ∃ ls : List String, ls.Perm labels ∧ ls.Sorted (· ≤ ·) ∧
      generate_regex_pattern labels =
        "\\b(?:" ++ joinBar (ls.map reEscape) ++ ")\\b" := by
  refine ⟨sortStr labels, List.perm_insertionSort _ _,
    List.sorted_insertionSort _ _, ?_⟩
  unfold generate_regex_pattern
  rw [if_neg (by simp [h])]

/-- Witness for C10: instantiation at the two-label set "b", "a". -/
theorem c10_anchored_sorted_alternation_witness :
    ∃ ls : List String, ls.Perm ["b", "a"] ∧ ls.Sorted (· ≤ ·) ∧
      generate_regex_pattern ["b", "a"] =
        "\\b(?:" ++ joinBar (ls.map reEscape) ++ ")\\b" :=
  c10_anchored_sorted_alternation _ (by simp)

theorem joinBar_data (l : List String) :
    (joinBar l).data = joinCh (l.map String.data) := by
  induction l with
  | nil => rfl
  | cons s rest ih =>
    cases rest with
    | nil => rfl
    | cons t r =>
      show (s ++ "|" ++ joinBar (t :: r)).data = s.data ++ '|' :: joinCh ((t :: r).map String.data)
      rw [String.data_append, String.data_append, ih]
      simp [joinCh]

theorem splitUnescapeAux_escape (s : List Char) :
    ∀ rest acc : List Char,
      splitUnescapeAux (escapeChars s ++ rest) false acc =
      splitUnescapeAux rest false (s.reverse ++ acc) := by
  induction s with
  | nil => intro rest acc; rfl
  | cons c cs ih =>
    intro rest acc
    by_cases hsp : isSpecialChar c = true
    · have he : escapeChars (c :: cs) = '\\' :: c :: escapeChars cs := by
        simp [escapeChars, hsp]
      rw [he, List.cons_append, List.cons_append]
      have h1 : splitUnescapeAux ('\\' :: c :: (escapeChars cs ++ rest)) false acc
          = splitUnescapeAux (escapeChars cs ++ rest) false (c :: acc) := rfl
      rw [h1, ih]
      simp
    · have hb : c ≠ '\\' := by
        rintro rfl
        simp [isSpecialChar, specialChars] at hsp
      have hp : c ≠ '|' := by
        rintro rfl
        simp [isSpecialChar, specialChars] at hsp
      have he : escapeChars (c :: cs) = c :: escapeChars cs := by
        simp [escapeChars, hsp]
      rw [he, List.cons_append]
      have h1 : splitUnescapeAux (c :: (escapeChars cs ++ rest)) false acc
          = splitUnescapeAux (escapeChars cs ++ rest) false (c :: acc) := by
        simp [splitUnescapeAux, hb, hp]
      rw [h1, ih]
      simp

theorem splitUnescapeAux_join (ls : List (List Char)) (h : ls ≠ []) :
    splitUnescapeAux (joinCh (ls.map escapeChars)) false [] = ls := by
  induction ls with
  | nil => exact absurd rfl h
  | cons x rest ih =>
    cases rest with
    | nil =>
      have hj : joinCh ([x].map escapeChars) = escapeChars x ++ [] := by
        simp [joinCh]
      rw [hj, splitUnescapeAux_escape]
      simp [splitUnescapeAux]
    | cons y r =>
      have hj : joinCh ((x :: y :: r).map escapeChars)
          = escapeChars x ++ '|' :: joinCh ((y :: r).map escapeChars) := by
        simp [joinCh]
      rw [hj, splitUnescapeAux_escape]
      have h2 : splitUnescapeAux ('|' :: joinCh ((y :: r).map escapeChars)) false (x.reverse ++ [])
          = (x.reverse ++ []).reverse ::
            splitUnescapeAux (joinCh ((y :: r).map escapeChars)) false [] := by
        simp [splitUnescapeAux]
      rw [h2, ih (by simp)]
      simp

/-- C5: escaping is losslessly invertible: splitting the alternation body
of `generate_regex_pattern` at its unescaped `|` delimiters while undoing
the `re.escape` backslashes reconstructs exactly the original label set
(as its lexicographically sorted arrangement), for arbitrary labels,
including labels containing the delimiter or other metacharacters. -/
theorem c5_escape_round_trip (labels : List String) (h : labels ≠ []) :
    splitUnescapeStr (stripAnchors (generate_regex_pattern labels)) = sortStr labels ∧
    (sortStr labels).Perm labels := by
  have hperm : (sortStr labels).Perm labels := List.perm_insertionSort _ _
  refine ⟨?_, hperm⟩
  have hne : sortStr labels ≠ [] := fun h0 => h (List.Perm.eq_nil (h0 ▸ hperm.symm))
  have hpat : generate_regex_pattern labels =
      "\\b(?:" ++ joinBar ((sortStr labels).map reEscape) ++ ")\\b" := by
    unfold generate_regex_pattern
    rw [if_neg (by simp [h])]
  rw [hpat]
  have hdata : ("\\b(?:" ++ joinBar ((sortStr labels).map reEscape) ++ ")\\b").data
      = ['\\', 'b', '(', '?', ':'] ++
        ((joinBar ((sortStr labels).map reEscape)).data ++ [')', '\\', 'b']) := by
    rw [String.data_append, String.data_append]
    simp
  unfold stripAnchors splitUnescapeStr
  rw [hdata]
  have hdrop : (['\\', 'b', '(', '?', ':'] ++
      ((joinBar ((sortStr labels).map reEscape)).data ++ [')', '\\', 'b'])).drop 5
      = (joinBar ((sortStr labels).map reEscape)).data ++ [')', '\\', 'b'] := by
    simp
  have hlen : (['\\', 'b', '(', '?', ':'] ++
      ((joinBar ((sortStr labels).map reEscape)).data ++ [')', '\\', 'b'])).length - 8
      = (joinBar ((sortStr labels).map reEscape)).data.length := by
    simp [List.length_append]
  rw [hdrop, hlen]
  have htake : ((joinBar ((sortStr labels).map reEscape)).data ++ [')', '\\', 'b']).take
      (joinBar ((sortStr labels).map reEscape)).data.length
      = (joinBar ((sortStr labels).map reEscape)).data :=
    List.take_left _ _
  rw [htake]
  show (splitUnescapeAux (joinBar ((sortStr labels).map reEscape)).data false []).map
      (fun cs => (⟨cs⟩ : String)) = sortStr labels
  rw [joinBar_data]
  have hmm : ((sortStr labels).map reEscape).map String.data
      = ((sortStr labels).map String.data).map escapeChars := by
    rw [List.map_map, List.map_map]
    rfl
  rw [hmm, splitUnescapeAux_join _ (by simp [hne])]
  rw [List.map_map]
  have hid : ((fun cs => (⟨cs⟩ : String)) ∘ String.data) = id := by
    funext s
    rfl
  rw [hid, List.map_id]

/-- Witness for C5: instantiation at a label set whose labels contain the
delimiter and a metacharacter. -/
theorem c5_escape_round_trip_witness :
    splitUnescapeStr (stripAnchors (generate_regex_pattern ["b|c", "a."])) =
      sortStr ["b|c", "a."] ∧
    (sortStr ["b|c", "a."]).Perm ["b|c", "a."] :=
  c5_escape_round_trip _ (by simp)

theorem reachB_succ (g : RGraph) (k : Nat) (c root : String) :
    reachB g (k + 1) c root =
      ((c == root) || g.sub.any fun pr => pr.1 == c && reachB g k pr.2 root) := rfl

theorem reachB_zero (g : RGraph) (c root : String) :
    reachB g 0 c root = (c == root) := rfl

theorem closurePattern_iff_reach (g : RGraph) (root c : String) :
    closurePattern g root c = true ↔ reachB g 3 c root = true := by
  rw [show reachB g 3 c root =
      ((c == root) || g.sub.any fun p1 => p1.1 == c &&
        ((p1.2 == root) || g.sub.any fun p2 => p2.1 == p1.2 &&
          ((p2.2 == root) || g.sub.any fun p3 => p3.1 == p2.2 && (p3.2 == root))))
    from rfl]
  simp only [closurePattern, edgeB, List.any_eq_true, Bool.or_eq_true,
    Bool.and_eq_true, beq_iff_eq]
  constructor
  · rintro (((hc | ⟨x, hx, hx1, hx2⟩) | ⟨x, hx, hx2, y, hy, hy1, hy2⟩) |
      ⟨gp, hgp, hgp2, pr, hpr, hpr2, q, hq, hq1, hq2⟩)
    · exact Or.inl hc
    · exact Or.inr ⟨x, hx, hx1, Or.inl hx2⟩
    · exact Or.inr ⟨y, hy, hy1, Or.inr ⟨x, hx, hy2.symm, Or.inl hx2⟩⟩
    · exact Or.inr ⟨q, hq, hq1, Or.inr ⟨pr, hpr, hq2.symm,
        Or.inr ⟨gp, hgp, hpr2.symm, hgp2⟩⟩⟩
  · rintro (hc | ⟨x, hx, hx1, (hx2 | ⟨y, hy, hy1, (hy2 | ⟨z, hz, hz1, hz2⟩)⟩)⟩)
    · exact Or.inl (Or.inl (Or.inl hc))
    · exact Or.inl (Or.inl (Or.inr ⟨x, hx, hx1, hx2⟩))
    · exact Or.inl (Or.inr ⟨y, hy, hy2, x, hx, hx1, hy1.symm⟩)
    · exact Or.inr ⟨z, hz, hz2, y, hy, hz1.symm, x, hx, hx1, hy1.symm⟩

/-- C1: on a fault-free graph and a valid root, the URI list returned by
`get_subclass_uris` — and the class set underlying the label query of
`get_subclass_labels` (`closureClasses`) — contains exactly the nodes
typed `owl:Class` that reach the root by a subclass-edge chain of length
0 through 3; a class whose only chains to the root are longer is
excluded, one with a 3-edge chain is included. -/
theorem c1_bounded_closure (g : RGraph) (root c : String) (us : List String)
    (hq : g.queryFault = none) (hok : uriOkB root = true)
    (hus : get_subclass_uris g root = .ok us) (hc : c ≠ "") :
    (c ∈ us ↔ c ∈ g.cls ∧ reachB g 3 c root = true) ∧
    (c ∈ closureClasses g root ↔ c ∈ g.cls ∧ reachB g 3 c root = true) := by
  have hcc : c ∈ closureClasses g root ↔ c ∈ g.cls ∧ reachB g 3 c root = true := by
    unfold closureClasses
    rw [List.mem_filter, closurePattern_iff_reach]
  have hus' : us = ((closureClasses g root).filter (fun c => c != "")).dedup := by
    simp [get_subclass_uris, hok, hq] at hus
    exact hus.symm
  refine ⟨?_, hcc⟩
  rw [hus', List.mem_dedup, List.mem_filter, hcc]
  simp [hc]

/-- Witness for C1: in the chain graph, `c3` (3-edge chain to the root) is
a member of the returned closure exactly as the reachability bound says;
the instantiated equivalence also certifies that `c4` (only a 4-edge
chain) is excluded, since `reachB` bounds the depth at 3. -/
theorem c1_bounded_closure_witness :
    ("http://c3" ∈ ["http://r", "http://c1", "http://c2", "http://c3"] ↔
      "http://c3" ∈ chainGraph.cls ∧
      reachB chainGraph 3 "http://c3" "http://r" = true) ∧
    ("http://c3" ∈ closureClasses chainGraph "http://r" ↔
      "http://c3" ∈ chainGraph.cls ∧
      reachB chainGraph 3 "http://c3" "http://r" = true) :=
  c1_bounded_closure chainGraph "http://r" "http://c3"
    ["http://r", "http://c1", "http://c2", "http://c3"] rfl (by decide) rfl (by decide)

theorem processRoots_empty (g : RGraph) (ns : String) (roots : List RootClass)
    (h : ∀ r ∈ roots,
      get_subclass_labels g (ns ++ r.id) = .ok [] ∧
      get_subclass_uris g (ns ++ r.id) = .ok []) :
    processRoots g ns roots = .ok ([], []) := by
  induction roots with
  | nil => rfl
  | cons r rs ih =>
    obtain ⟨hl, hu⟩ := h r (List.mem_cons_self _ _)
    have ht := ih (fun x hx => h x (List.mem_cons_of_mem _ hx))
    simp only [processRoots]
    rw [hl, hu, ht]
    rfl

theorem buildEntry_empty (g : RGraph) (ns : String) (cfg : CatConfig)
    (h : processRoots g ns cfg.root_classes = .ok ([], [])) :
    buildEntry g ns cfg = .ok ⟨cfg.label, cfg.description, [], 0, "", [], 0,
      "VALUES ?targetClass \x7b \x7d"⟩ := by
  unfold buildEntry
  rw [h]
  rfl

theorem buildCats_mem_ok (g : RGraph) (ns : String) :
    ∀ (cats : List (String × CatConfig)) (doc : List (String × CatEntry))
      (name : String) (cfg : CatConfig),
      buildCats g ns cats = .ok doc → (name, cfg) ∈ cats →
      ∃ e, buildEntry g ns cfg = .ok e ∧ (name, e) ∈ doc := by
  intro cats
  induction cats with
  | nil =>
    intro doc name cfg h hm
    simp at hm
  | cons p rest ih =>
    intro doc name cfg h hm
    obtain ⟨n, c⟩ := p
    cases he : buildEntry g ns c with
    | error e =>
      unfold buildCats at h
      rw [he] at h
      exact Except.noConfusion h
    | ok ent =>
      cases ht : buildCats g ns rest with
      | error e =>
        unfold buildCats at h
        rw [he, ht] at h
        exact Except.noConfusion h
      | ok tail =>
        unfold buildCats at h
        rw [he, ht] at h
        have hok : Except.ok ((n, ent) :: tail) = Except.ok doc := h
        have hdoc : doc = (n, ent) :: tail := by
          injection hok with h'
          exact h'.symm
        rcases List.mem_cons.mp hm with heq | hmem
        · obtain ⟨h1, h2⟩ := Prod.mk.injEq .. |>.mp heq
          subst h1
          subst h2
          exact ⟨ent, he, by rw [hdoc]; exact List.mem_cons_self _ _⟩
        · obtain ⟨e, hee, hmm⟩ := ih tail name cfg ht hmem
          exact ⟨e, hee, by rw [hdoc]; exact List.mem_cons_of_mem _ hmm⟩

theorem buildCats_ok_mem (g : RGraph) (ns : String) :
    ∀ (cats : List (String × CatConfig)) (doc : List (String × CatEntry))
      (name : String) (e : CatEntry),
      buildCats g ns cats = .ok doc → (name, e) ∈ doc →
      ∃ cfg, buildEntry g ns cfg = .ok e := by
  intro cats
  induction cats with
  | nil =>
    intro doc name e h hm
    unfold buildCats at h
    injection h with h'
    rw [← h'] at hm
    simp at hm
  | cons p rest ih =>
    intro doc name e h hm
    obtain ⟨n, c⟩ := p
    cases he : buildEntry g ns c with
    | error exc =>
      unfold buildCats at h
      rw [he] at h
      exact Except.noConfusion h
    | ok ent =>
      cases ht : buildCats g ns rest with
      | error exc =>
        unfold buildCats at h
        rw [he, ht] at h
        exact Except.noConfusion h
      | ok tail =>
        unfold buildCats at h
        rw [he, ht] at h
        have hok : Except.ok ((n, ent) :: tail) = Except.ok doc := h
        injection hok with h'
        rw [← h'] at hm
        rcases List.mem_cons.mp hm with heq | hmem
        · obtain ⟨h1, h2⟩ := Prod.mk.injEq .. |>.mp heq
          exact ⟨c, by rw [he, h2]⟩
        · exact ih tail name e ht hmem

/-- C7: a category whose configured `root_classes` list is empty, or whose
roots all resolve to empty closures and empty label sets, still receives a
fully-populated entry in the output document, with empty labels, zero
counts, empty regex, empty URI list and the empty VALUES clause — the
category is never omitted. -/
theorem c7_empty_category_entry (g : RGraph) (config : PatConfig)
    (name : String) (cfg : CatConfig) (doc : List (String × CatEntry))
    (hdoc : generate_patterns g config = .ok doc)
    (hmem : (name, cfg) ∈ config.categories)
    (hempty : cfg.root_classes = [] ∨
      ∀ r ∈ cfg.root_classes,
        get_subclass_labels g (config.ns ++ r.id) = .ok [] ∧
        get_subclass_uris g (config.ns ++ r.id) = .ok []) :
    ∃ entry, (name, entry) ∈ doc ∧ entry.labels = [] ∧ entry.label_count = 0 ∧
      entry.regex = "" ∧ entry.class_uris = [] ∧ entry.class_count = 0 ∧
      entry.values_clause = "VALUES ?targetClass \x7b \x7d" := by
  have hpr : processRoots g config.ns cfg.root_classes = .ok ([], []) := by
    cases hempty with
    | inl h => rw [h]; rfl
    | inr h => exact processRoots_empty _ _ _ h
  have hbe := buildEntry_empty g config.ns cfg hpr
  obtain ⟨e, he, hm⟩ := buildCats_mem_ok g config.ns config.categories doc
    name cfg hdoc hmem
  rw [hbe] at he
  injection he with he'
  rw [← he'] at hm
  exact ⟨_, hm, rfl, rfl, rfl, rfl, rfl, rfl⟩

/-- Witness for C7: the category `empty_cat`, configured with no roots,
appears in the output of `generate_patterns` with all-empty artifacts. -/
theorem c7_empty_category_entry_witness :
    ∃ entry, ("empty_cat", entry) ∈
      [("empty_cat", (⟨"Empty", "", [], 0, "", [], 0,
        "VALUES ?targetClass \x7b \x7d"⟩ : CatEntry))] ∧
      entry.labels = [] ∧ entry.label_count = 0 ∧ entry.regex = "" ∧
      entry.class_uris = [] ∧ entry.class_count = 0 ∧
      entry.values_clause = "VALUES ?targetClass \x7b \x7d" :=
  c7_empty_category_entry chainGraph emptyCatConfig "empty_cat" ⟨"Empty", "", []⟩
    _ rfl (List.mem_cons_self _ _) (Or.inl rfl)

/-- C9: in every category entry emitted by `generate_patterns`,
`label_count` equals the length of `labels`, `class_count` equals the
length of `class_uris`, and both lists are duplicate-free and sorted
lexicographically — even when the same URI was returned by several roots. -/
theorem c9_entry_invariants (g : RGraph) (config : PatConfig)
    (doc : List (String × CatEntry)) (name : String) (entry : CatEntry)
    (hdoc : generate_patterns g config = .ok doc)
    (hmem : (name, entry) ∈ doc) :
    entry.label_count = entry.labels.length ∧
    entry.class_count = entry.class_uris.length ∧
    entry.labels.Nodup ∧ entry.labels.Sorted (· ≤ ·) ∧
    entry.class_uris.Nodup ∧ entry.class_uris.Sorted (· ≤ ·) := by
  obtain ⟨cfg, he⟩ := buildCats_ok_mem g config.ns config.categories doc
    name entry hdoc hmem
  unfold buildEntry at he
  cases hpr : processRoots g config.ns cfg.root_classes with
  | error exc =>
    rw [hpr] at he
    exact Except.noConfusion he
  | ok lu =>
    rw [hpr] at he
    have hok : Except.ok (⟨cfg.label, cfg.description, sortStr lu.1.dedup,
        lu.1.dedup.length, generate_regex_pattern lu.1.dedup,
        sortStr lu.2.dedup, lu.2.dedup.length,
        generate_values_clause lu.2.dedup⟩ : CatEntry) = Except.ok entry := he
    injection hok with he'
    rw [← he']
    refine ⟨(List.perm_insertionSort _ _).length_eq.symm,
      (List.perm_insertionSort _ _).length_eq.symm,
      (List.perm_insertionSort _ _).symm.nodup (List.nodup_dedup _),
      List.sorted_insertionSort _ _,
      (List.perm_insertionSort _ _).symm.nodup (List.nodup_dedup _),
      List.sorted_insertionSort _ _⟩

/-- Witness for C9: the compiled `leaf` category of the chain graph has
counts matching its list lengths and sorted duplicate-free lists. -/
theorem c9_entry_invariants_witness :
    leafEntry.label_count = leafEntry.labels.length ∧
    leafEntry.class_count = leafEntry.class_uris.length ∧
    leafEntry.labels.Nodup ∧ leafEntry.labels.Sorted (· ≤ ·) ∧
    leafEntry.class_uris.Nodup ∧ leafEntry.class_uris.Sorted (· ≤ ·) :=
  c9_entry_invariants chainGraph chainConfig [("leaf", leafEntry)]
    "leaf" leafEntry (by rfl) (List.mem_cons_self _ _)

/-! ## Grouping lemmas for the ambiguity detector -/

theorem lookup_addToGroups_same (m : List (String × List AEntry)) (k : String)
    (e : AEntry) :
    List.lookup k (addToGroups m k e) = some ((List.lookup k m).getD [] ++ [e]) := by
  induction m with
  | nil => simp [addToGroups, List.lookup]
  | cons p rest ih =>
    obtain ⟨k', es⟩ := p
    by_cases hk : k' = k
    · subst hk
      simp [addToGroups, List.lookup]
    · have hk2 : (k == k') = false := by
        simp [Ne.symm hk]
      simp [addToGroups, hk, List.lookup, hk2, ih]

theorem lookup_addToGroups_ne (m : List (String × List AEntry)) (k k₁ : String)
    (e : AEntry) (h : k ≠ k₁) :
    List.lookup k (addToGroups m k₁ e) = List.lookup k m := by
  induction m with
  | nil =>
    have hb : (k == k₁) = false := by simp [h]
    simp [addToGroups, List.lookup, hb]
  | cons p rest ih =>
    obtain ⟨k', es⟩ := p
    by_cases hk : k' = k₁
    · subst hk
      have hk2 : (k == k') = false := by simp [h]
      simp [addToGroups, List.lookup, hk2]
    · by_cases hkk : k == k'
      · simp [addToGroups, hk, List.lookup, hkk]
      · simp [addToGroups, hk, List.lookup, hkk, ih]

theorem lookup_foldl_addToGroups (ps : List (String × AEntry)) :
    ∀ (m : List (String × List AEntry)) (k : String),
      List.lookup k (ps.foldl (fun acc p => addToGroups acc p.1 p.2) m) =
        match List.lookup k m with
        | some es => some (es ++ occsOf ps k)
        | none => if occsOf ps k = [] then none else some (occsOf ps k) := by
  induction ps with
  | nil =>
    intro m k
    cases h : List.lookup k m <;> simp [occsOf, h]
  | cons p rest ih =>
    intro m k
    obtain ⟨k₁, e⟩ := p
    show List.lookup k (rest.foldl _ (addToGroups m k₁ e)) = _
    rw [ih (addToGroups m k₁ e) k]
    by_cases hk : k₁ = k
    · subst hk
      rw [lookup_addToGroups_same]
      have ho : occsOf ((k₁, e) :: rest) k₁ = e :: occsOf rest k₁ := by
        simp [occsOf, List.filter_cons]
      rw [ho]
      cases h : List.lookup k₁ m with
      | none => simp [h]
      | some es => simp [h]
    · rw [lookup_addToGroups_ne m k k₁ e (Ne.symm hk)]
      have ho : occsOf ((k₁, e) :: rest) k = occsOf rest k := by
        have : (k₁ == k) = false := by simp [hk]
        simp [occsOf, List.filter_cons, this]
      rw [ho]

/-- The keys of a group list, in order. -/
def groupKeys (m : List (String × List AEntry)) : List String :=
  m.map (fun p => p.1)

theorem keys_addToGroups (m : List (String × List AEntry)) (k : String) (e : AEntry) :
    groupKeys (addToGroups m k e) =
      if k ∈ groupKeys m then groupKeys m else groupKeys m ++ [k] := by
  induction m with
  | nil => simp [addToGroups, groupKeys]
  | cons p rest ih =>
    obtain ⟨k', es⟩ := p
    by_cases hk : k' = k
    · subst hk
      simp [addToGroups, groupKeys]
    · have hne : ¬ k = k' := Ne.symm hk
      simp only [addToGroups, if_neg hk, groupKeys, List.map_cons]
      rw [show List.map (fun p => p.1) (addToGroups rest k e)
          = groupKeys (addToGroups rest k e) from rfl, ih]
      simp only [groupKeys]
      by_cases hmem : k ∈ List.map (fun p => p.1) rest
      · simp [hmem, hne]
      · simp [hmem, hne]

theorem nodup_keys_addToGroups (m : List (String × List AEntry)) (k : String)
    (e : AEntry) (h : (groupKeys m).Nodup) :
    (groupKeys (addToGroups m k e)).Nodup := by
  rw [keys_addToGroups]
  by_cases hmem : k ∈ groupKeys m
  · simpa [hmem] using h
  · simp only [hmem, if_false]
    rw [List.nodup_append]
    exact ⟨h, List.nodup_singleton _, fun x hx hx2 =>
      hmem (by rw [List.mem_singleton] at hx2; rwa [hx2] at hx)⟩

theorem nodup_keys_foldl (ps : List (String × AEntry)) :
    ∀ m : List (String × List AEntry), (groupKeys m).Nodup →
      (groupKeys (ps.foldl (fun acc p => addToGroups acc p.1 p.2) m)).Nodup := by
  induction ps with
  | nil => intro m h; exact h
  | cons p rest ih =>
    intro m h
    exact ih _ (nodup_keys_addToGroups m p.1 p.2 h)

theorem nodup_keys_groupPairs (ps : List (String × AEntry)) :
    (groupKeys (groupPairs ps)).Nodup :=
  nodup_keys_foldl ps [] List.nodup_nil

theorem lookup_eq_none_of_not_mem_keys (m : List (String × List AEntry)) (k : String)
    (h : k ∉ groupKeys m) : List.lookup k m = none := by
  induction m with
  | nil => rfl
  | cons p rest ih =>
    obtain ⟨k', v⟩ := p
    have h1 : ¬ k = k' := fun hh => h (by simp [groupKeys, hh])
    have h2 : k ∉ groupKeys rest := fun hh => h (by simp [groupKeys]; right; simpa [groupKeys] using hh)
    have hb : (k == k') = false := by simp [h1]
    simp [List.lookup, hb, ih h2]

theorem keys_filter_subset (p : String × List AEntry → Bool)
    (m : List (String × List AEntry)) :
    groupKeys (m.filter p) ⊆ groupKeys m := by
  intro x hx
  simp only [groupKeys, List.mem_map] at hx ⊢
  obtain ⟨q, hq, hqx⟩ := hx
  exact ⟨q, (List.mem_filter.mp hq).1, hqx⟩

theorem lookup_filter (p : String × List AEntry → Bool) :
    ∀ (m : List (String × List AEntry)) (k : String), (groupKeys m).Nodup →
      List.lookup k (m.filter p) =
        match List.lookup k m with
        | some v => if p (k, v) then some v else none
        | none => none := by
  intro m
  induction m with
  | nil => intro k h; rfl
  | cons q rest ih =>
    intro k h
    obtain ⟨k', v⟩ := q
    have hrest : (groupKeys rest).Nodup := (List.nodup_cons.mp h).2
    have hout : k' ∉ groupKeys rest := (List.nodup_cons.mp h).1
    by_cases hk : k' = k
    · subst hk
      by_cases hp : p (k', v) = true
      · simp [List.filter_cons, hp, List.lookup]
      · have hnone : List.lookup k' (rest.filter p) = none :=
          lookup_eq_none_of_not_mem_keys _ _
            (fun hh => hout (keys_filter_subset p rest hh))
        simp [List.filter_cons, hp, List.lookup, hnone]
    · have hb : (k == k') = false := by simp [Ne.symm hk]
      by_cases hp : p (k', v) = true
      · simp [List.filter_cons, hp, List.lookup, hb, ih k hrest]
      · simp [List.filter_cons, hp, List.lookup, hb, ih k hrest]

/-- C6: `find_ambiguous_labels` returns exactly the groups of label
occurrences, keyed by lower-cased and trimmed label text, that contain two
or more occurrences: looking up any normalized key yields the full ordered
list of its occurrences when there are at least two, and nothing when the
key has at most one occurrence. -/
theorem c6_ambiguous_groups (g : AGraph) (k : String) :
    List.lookup k (find_ambiguous_labels g) =
      (if 2 ≤ (occsOf (allPairs g) k).length
        then some (occsOf (allPairs g) k) else none) := by
  unfold find_ambiguous_labels
  rw [lookup_filter _ (groupPairs (allPairs g)) k (nodup_keys_groupPairs _)]
  unfold groupPairs
  rw [lookup_foldl_addToGroups (allPairs g) [] k]
  by_cases h0 : occsOf (allPairs g) k = []
  · simp [List.lookup, h0]
  · by_cases h2 : 2 ≤ (occsOf (allPairs g) k).length
    · have h1 : 1 < (occsOf (allPairs g) k).length := h2
      simp [List.lookup, h0, h1, h2]
    · have h1 : ¬ 1 < (occsOf (allPairs g) k).length := h2
      simp [List.lookup, h0, h1, h2]
